import Mathlib

/-!
Shallow embedding of the Users/Tasks REST API (Express + Mongoose) and its
bidirectional `Task.assignedUser` / `User.pendingTasks` synchronizer.

The document store is modelled as an association list keyed by document id
(MongoDB collections with unique `_id`).  A Mongoose
`findByIdAndUpdate(id, obj)` with a plain update object performs a `$set`
of exactly the fields present in `obj` (merge, not replacement); this is
modelled faithfully by merging optional payload fields over the previous
document.  `Date` values are modelled as opaque strings.
-/

namespace TaskApi

/-- Stored User document (models/user.js schema). -/
structure User where
  name : String
  email : String
  pendingTasks : List String
  dateCreated : String
deriving Repr, DecidableEq

/-- Stored Task document (models/task.js schema). -/
structure Task where
  name : String
  description : String
  deadline : String
  completed : Bool
  assignedUser : String
  assignedUserName : String
  dateCreated : String
deriving Repr, DecidableEq

/-- A document collection: association list keyed by document id. -/
abbrev Store (α : Type) := List (String × α)

/-- `findById`: first document with the given id. -/
def slookup {α : Type} (s : Store α) (k : String) : Option α :=
  match s with
  | [] => none
  | p :: rest => if p.1 = k then some p.2 else slookup rest k

/-- `updateMany(cond, f)`: rewrite every document satisfying `cond`. -/
def supdateAll {α : Type} (s : Store α) (c : String → α → Bool) (f : α → α) :
    Store α :=
  s.map (fun p => if c p.1 p.2 then (p.1, f p.2) else p)

/-- `updateOne({_id: k}, f)` / `findByIdAndUpdate`: rewrite the document with id `k`. -/
def supdate {α : Type} (s : Store α) (k : String) (f : α → α) : Store α :=
  supdateAll s (fun k2 _ => k2 == k) f

/-- `findByIdAndDelete`: remove the document with id `k`. -/
def sdelete {α : Type} (s : Store α) (k : String) : Store α :=
  s.filter (fun p => p.1 != k)

/-- The whole database: both collections. -/
structure DB where
  users : Store User
  tasks : Store Task
deriving Repr, DecidableEq

/-- Request body for user endpoints (`req.body` fields that the code reads);
`none` models an absent field.  `pendingTasks = some l` models
`Array.isArray(pendingTasks)` being true. -/
structure UserBody where
  name : Option String := none
  email : Option String := none
  pendingTasks : Option (List String) := none
  dateCreated : Option String := none
deriving Repr, DecidableEq

/-- Request body for task endpoints; `none` models an absent field. -/
structure TaskBody where
  name : Option String := none
  description : Option String := none
  deadline : Option String := none
  completed : Option Bool := none
  assignedUser : Option String := none
  dateCreated : Option String := none
deriving Repr, DecidableEq

/-- JS truthiness test used by the validation checks (`!field`): an absent
field and the empty string are both falsy. -/
def falsyStr (o : Option String) : Bool := o.getD "" == ""

/-- `email.toLowerCase().trim()`: lower-case every character, then strip
whitespace from both ends (written over the character list so that it is
structurally recursive and kernel-computable). -/
def normalizeEmail (e : String) : String :=
  String.mk
    ((((e.data.map Char.toLower).dropWhile Char.isWhitespace).reverse.dropWhile
      Char.isWhitespace).reverse)

/-- Response outcomes distinguished by the handlers (HTTP status). -/
inductive Outcome where
  | ok
  | created
  | validationError
  | notFoundError
  | conflictError
deriving Repr, DecidableEq

/-- `resolveUserName(userId)`: "unassigned" for a falsy id (no store lookup),
otherwise the user's name, or "unassigned" on a miss. -/
def resolveUserName (userId : String) (users : Store User) : String :=
  if userId = "" then "unassigned"
  else
    match slookup users userId with
    | some u => u.name
    | none => "unassigned"

/-- `addPendingToUser(userId, taskId)`:
`User.updateOne({_id: userId, pendingTasks: {$ne: taskId}}, {$push: ...})`. -/
def addPendingToUser (userId taskId : String) (users : Store User) :
    Store User :=
  if userId = "" ∨ taskId = "" then users
  else
    supdate users userId (fun u =>
      if taskId ∈ u.pendingTasks then u
      else { u with pendingTasks := u.pendingTasks ++ [taskId] })

/-- `removePendingFromUser(userId, taskId)`:
`User.updateOne({_id: userId}, {$pull: {pendingTasks: taskId}})`. -/
def removePendingFromUser (userId taskId : String) (users : Store User) :
    Store User :=
  if userId = "" ∨ taskId = "" then users
  else
    supdate users userId (fun u =>
      { u with pendingTasks := u.pendingTasks.filter (fun x => x != taskId) })

/-- POST /users: validation, duplicate-email check, insert. -/
def createUser (newId now : String) (b : UserBody) (db : DB) : Outcome × DB :=
  if falsyStr b.name || falsyStr b.email then (Outcome.validationError, db)
  else
    let email := normalizeEmail (b.email.getD "")
    if db.users.any (fun p => p.2.email == email) then (Outcome.conflictError, db)
    else
      let u : User :=
        { name := b.name.getD "", email := email,
          pendingTasks := b.pendingTasks.getD [],
          dateCreated := b.dateCreated.getD now }
      (Outcome.created, { db with users := (newId, u) :: db.users })

/-- POST /tasks: validation, name denormalization, insert, conditional
`addPendingToUser` when `assignedUser && !completed`. -/
def createTask (newId now : String) (b : TaskBody) (db : DB) : Outcome × DB :=
  if falsyStr b.name || falsyStr b.deadline then (Outcome.validationError, db)
  else
    let assignedUserName := resolveUserName (b.assignedUser.getD "") db.users
    let t : Task :=
      { name := b.name.getD "", description := b.description.getD "",
        deadline := b.deadline.getD "", completed := b.completed.getD false,
        assignedUser := b.assignedUser.getD "",
        assignedUserName := assignedUserName,
        dateCreated := b.dateCreated.getD now }
    let db1 : DB := { db with tasks := (newId, t) :: db.tasks }
    let db2 : DB :=
      if b.assignedUser.getD "" ≠ "" ∧ b.completed.getD false = false then
        { db1 with users := addPendingToUser (b.assignedUser.getD "") newId db1.users }
      else db1
    (Outcome.created, db2)

/-- Mongoose `$set` merge used by `Task.findByIdAndUpdate(id, {...req.body,
assignedUserName})`: fields present in the body replace the stored ones,
absent fields keep their previous values, `assignedUserName` is always
overwritten. -/
def mergeTask (prev : Task) (b : TaskBody) (newName : String) : Task :=
  { name := b.name.getD prev.name,
    description := b.description.getD prev.description,
    deadline := b.deadline.getD prev.deadline,
    completed := b.completed.getD prev.completed,
    assignedUser := b.assignedUser.getD prev.assignedUser,
    assignedUserName := newName,
    dateCreated := b.dateCreated.getD prev.dateCreated }

/-- The three pendingTasks reconciliation steps of PUT /tasks/:id, in
source order: (1) pull from the previous assignee when the assignment
changed, (2) idempotent push to the new assignee when not completed,
(3) pull from the new assignee when completed. -/
def updateTaskSyncUsers (id prevUser nextUser : String) (comp : Bool)
    (users : Store User) : Store User :=
  let users1 :=
    if prevUser ≠ "" ∧ prevUser ≠ nextUser
    then removePendingFromUser prevUser id users else users
  let users2 :=
    if nextUser ≠ "" ∧ comp = false
    then addPendingToUser nextUser id users1 else users1
  if comp = true ∧ nextUser ≠ ""
  then removePendingFromUser nextUser id users2 else users2

/-- PUT /tasks/:id: validation, load, merge-update, then the three
pendingTasks reconciliation steps. -/
def updateTask (id : String) (b : TaskBody) (db : DB) : Outcome × DB :=
  if falsyStr b.name || falsyStr b.deadline then (Outcome.validationError, db)
  else
    match slookup db.tasks id with
    | none => (Outcome.notFoundError, db)
    | some prev =>
      let newAssignedUser := b.assignedUser.getD ""
      let newAssignedUserName := resolveUserName newAssignedUser db.users
      let updated := mergeTask prev b newAssignedUserName
      let tasks1 := supdate db.tasks id (fun _ => updated)
      let users3 := updateTaskSyncUsers id prev.assignedUser
        updated.assignedUser updated.completed db.users
      (Outcome.ok, { users := users3, tasks := tasks1 })

/-- DELETE /tasks/:id: delete, then remove the id from the assignee's
pendingTasks when the task was assigned. -/
def deleteTask (id : String) (db : DB) : Outcome × DB :=
  match slookup db.tasks id with
  | none => (Outcome.notFoundError, db)
  | some t =>
    let db1 : DB := { db with tasks := sdelete db.tasks id }
    let db2 : DB :=
      if t.assignedUser ≠ "" then
        { db1 with users := removePendingFromUser t.assignedUser id db1.users }
      else db1
    (Outcome.ok, db2)

/-- `{$set: {assignedUser: '', assignedUserName: 'unassigned'}}`. -/
def clearAssignment (t : Task) : Task :=
  { t with assignedUser := "", assignedUserName := "unassigned" }

/-- `{$set: {assignedUser: uid, assignedUserName: uname}}`. -/
def assignTo (uid uname : String) (t : Task) : Task :=
  { t with assignedUser := uid, assignedUserName := uname }

/-- The two `Task.updateMany` calls of PUT /users/:id: unassign the removed
ids still owned by this user, then assign the added ids unconditionally. -/
def updateUserSyncTasks (id uname : String) (prevPend pend : List String)
    (tasks : Store Task) : Store Task :=
  let removed := prevPend.filter (fun x => !(pend.contains x))
  let added := pend.filter (fun x => !(prevPend.contains x))
  supdateAll
    (supdateAll tasks (fun k t => removed.contains k && (t.assignedUser == id))
      clearAssignment)
    (fun k _ => added.contains k) (assignTo id uname)

/-- PUT /users/:id: validation, load, merge-update of name / normalized
email / pendingTasks, then the task-side reconciliation when the payload
supplies a pendingTasks array. -/
def updateUser (id : String) (b : UserBody) (db : DB) : Outcome × DB :=
  if falsyStr b.name || falsyStr b.email then (Outcome.validationError, db)
  else
    match slookup db.users id with
    | none => (Outcome.notFoundError, db)
    | some prev =>
      let newPending :=
        match b.pendingTasks with
        | some l => l
        | none => prev.pendingTasks
      let updated : User :=
        { prev with name := b.name.getD "",
                    email := normalizeEmail (b.email.getD ""),
                    pendingTasks := newPending }
      let users1 := supdate db.users id (fun _ => updated)
      match b.pendingTasks with
      | none => (Outcome.ok, { db with users := users1 })
      | some pend =>
        let tasks2 :=
          updateUserSyncTasks id updated.name prev.pendingTasks pend db.tasks
        (Outcome.ok, { users := users1, tasks := tasks2 })

/-- DELETE /users/:id: delete the user, then bulk-unassign every task whose
`assignedUser` equals this id. -/
def deleteUser (id : String) (db : DB) : Outcome × DB :=
  match slookup db.users id with
  | none => (Outcome.notFoundError, db)
  | some _ =>
    let users1 := sdelete db.users id
    let tasks1 := supdateAll db.tasks (fun _ t => t.assignedUser == id)
      clearAssignment
    (Outcome.ok, { users := users1, tasks := tasks1 })

/-! ### The list-query builder (`buildQuery`), limit/skip semantics -/

/-- The list-request parameters the limit logic of `buildQuery` reads
(`where`/`sort`/`select` are passed through to the store and modelled as
abstract parameters of `runListQuery`). -/
structure ListQuery where
  count : Option String := none
  limit : Option String := none
  skip : Option String := none
deriving Repr, DecidableEq

/-- `parseInt(s, 10) || 0` (on the happy path: a decimal literal or 0). -/
def parseIntOr0 (s : String) : Nat := s.toNat?.getD 0

/-- The limit `buildQuery` installs: none when `count === 'true'`; the
explicit limit when a truthy `limit` param is given; otherwise the default
cap of 100 for the Task collection and none for Users. -/
def queryLimit (q : ListQuery) (isTasks : Bool) : Option Nat :=
  if q.count = some "true" then none
  else if q.limit.getD "" ≠ "" then some (parseIntOr0 (q.limit.getD ""))
  else if isTasks then some 100 else none

/-- MongoDB `limit(n)`: `limit(0)` means no limit. -/
def applyLimit {α : Type} (l : Option Nat) (docs : List α) : List α :=
  match l with
  | none => docs
  | some 0 => docs
  | some (n + 1) => docs.take (n + 1)

/-- The skip `buildQuery` installs (`if (q.skip) query.skip(parseInt...)`). -/
def querySkip (q : ListQuery) : Nat :=
  if q.skip.getD "" ≠ "" then parseIntOr0 (q.skip.getD "") else 0

/-- Executing the built list query against the collection: `find(where)`
filtering, an abstract sort, then skip and limit.  `w` is the parsed
`where` filter and `sortf` the store's sort (any list function). -/
def runListQuery {α : Type} (docs : List α) (w : α → Bool)
    (sortf : List α → List α) (q : ListQuery) (isTasks : Bool) : List α :=
  applyLimit (queryLimit q isTasks) ((sortf (docs.filter w)).drop (querySkip q))

/-! ### The §3 consistency contract -/

/-- Rule 1: an assigned, uncompleted task is in its user's pendingTasks
exactly once. -/
abbrev Rule1 (db : DB) : Prop :=
  ∀ p ∈ db.users, ∀ q ∈ db.tasks,
    (q : String × Task).2.assignedUser = (p : String × User).1 →
    q.2.completed = false → p.2.pendingTasks.count q.1 = 1

/-- Rule 2: an assigned, completed task is not in its user's pendingTasks. -/
abbrev Rule2 (db : DB) : Prop :=
  ∀ p ∈ db.users, ∀ q ∈ db.tasks,
    (q : String × Task).2.assignedUser = (p : String × User).1 →
    q.2.completed = true → q.1 ∉ p.2.pendingTasks

/-- Rule 3: an unassigned task is in no user's pendingTasks. -/
abbrev Rule3 (db : DB) : Prop :=
  ∀ q ∈ db.tasks, (q : String × Task).2.assignedUser = "" →
    ∀ p ∈ db.users, q.1 ∉ (p : String × User).2.pendingTasks

/-- Rule 4: `assignedUserName` equals the referenced user's current name,
or "unassigned" when the reference is empty or dangling. -/
abbrev Rule4 (db : DB) : Prop :=
  ∀ q ∈ db.tasks,
    (q : String × Task).2.assignedUserName =
      resolveUserName q.2.assignedUser db.users

/-- The §3 consistency contract. -/
abbrev Inv (db : DB) : Prop := Rule1 db ∧ Rule2 db ∧ Rule3 db ∧ Rule4 db

/-- Store well-formedness: ids are store-assigned, hence unique per
collection and non-empty. -/
abbrev WF (db : DB) : Prop :=
  (db.users.map Prod.fst).Nodup ∧ (db.tasks.map Prod.fst).Nodup ∧
    "" ∉ db.users.map Prod.fst ∧ "" ∉ db.tasks.map Prod.fst

/-- Strengthening of §3 making it usable as a precondition: every id listed
in a user's pendingTasks references an existing task assigned to that
user. -/
abbrev StrongRef (db : DB) : Prop :=
  ∀ p ∈ db.users, ∀ x ∈ (p : String × User).2.pendingTasks,
    ∃ q ∈ db.tasks, (q : String × Task).1 = x ∧ q.2.assignedUser = p.1

/-! ### The five Sync Engine entry points as one call type -/

/-- One Sync Engine call (the five mutation entry points). -/
inductive SyncCall where
  | createTaskC (newId now : String) (b : TaskBody)
  | updateTaskC (id : String) (b : TaskBody)
  | deleteTaskC (id : String)
  | updateUserC (id : String) (b : UserBody)
  | deleteUserC (id : String)
deriving Repr, DecidableEq

/-- Run one call; `some` exactly when the call completed (2xx). -/
def applyCall (c : SyncCall) (db : DB) : Option DB :=
  match c with
  | SyncCall.createTaskC newId now b =>
    let r := createTask newId now b db
    if r.1 = Outcome.created then some r.2 else none
  | SyncCall.updateTaskC id b =>
    let r := updateTask id b db
    if r.1 = Outcome.ok then some r.2 else none
  | SyncCall.deleteTaskC id =>
    let r := deleteTask id db
    if r.1 = Outcome.ok then some r.2 else none
  | SyncCall.updateUserC id b =>
    let r := updateUser id b db
    if r.1 = Outcome.ok then some r.2 else none
  | SyncCall.deleteUserC id =>
    let r := deleteUser id db
    if r.1 = Outcome.ok then some r.2 else none

/-- A store-assigned task id: non-empty, unused, and (ids never being
reused) listed in no user's pendingTasks. -/
abbrev FreshTaskId (db : DB) (newId : String) : Prop :=
  newId ≠ "" ∧ slookup db.tasks newId = none ∧
    ∀ p ∈ db.users, newId ∉ (p : String × User).2.pendingTasks

/-- Side conditions of a call: store-assigned fresh ids on create, and
duplicate-free pendingTasks payloads (§3 data model) on user update. -/
abbrev callOK (c : SyncCall) (db : DB) : Prop :=
  match c with
  | SyncCall.createTaskC newId _ _ => FreshTaskId db newId
  | SyncCall.updateUserC _ b =>
    match b.pendingTasks with
    | some l => l.Nodup
    | none => True
  | _ => True

/-! ### Store lemmas -/

theorem mem_of_slookup {α : Type} {s : Store α} {k : String} {v : α}
    (h : slookup s k = some v) : (k, v) ∈ s := by
  induction s with
  | nil => simp [slookup] at h
  | cons p rest ih =>
    by_cases hk : p.1 = k
    · simp [slookup, hk] at h
      subst hk h
      simp
    · simp [slookup, hk] at h
      exact List.mem_cons_of_mem _ (ih h)

theorem slookup_of_mem {α : Type} {s : Store α} {k : String} {v : α}
    (hn : (s.map Prod.fst).Nodup) (h : (k, v) ∈ s) : slookup s k = some v := by
  induction s with
  | nil => simp at h
  | cons p rest ih =>
    simp only [List.map_cons, List.nodup_cons] at hn
    rcases List.mem_cons.mp h with h1 | h1
    · subst h1
      simp [slookup]
    · have hk : p.1 ≠ k := by
        intro he
        exact hn.1 (he ▸ List.mem_map_of_mem Prod.fst h1)
      simp [slookup, hk]
      exact ih hn.2 h1

theorem key_unique {α : Type} {s : Store α} {k : String} {v w : α}
    (hn : (s.map Prod.fst).Nodup) (h1 : (k, v) ∈ s) (h2 : (k, w) ∈ s) :
    v = w := by
  have e1 := slookup_of_mem hn h1
  have e2 := slookup_of_mem hn h2
  rw [e1] at e2
  exact Option.some_inj.mp e2

theorem slookup_eq_none_iff {α : Type} {s : Store α} {k : String} :
    slookup s k = none ↔ k ∉ s.map Prod.fst := by
  induction s with
  | nil => simp [slookup]
  | cons p rest ih =>
    by_cases hk : p.1 = k
    · simp [slookup, hk]
    · simp [slookup, hk, ih, Ne.symm hk]

theorem mem_supdateAll_iff {α : Type} {s : Store α} {c : String → α → Bool}
    {f : α → α} {p : String × α} :
    p ∈ supdateAll s c f ↔
      ∃ q, q ∈ s ∧ p = (q.1, if c q.1 q.2 = true then f q.2 else q.2) := by
  unfold supdateAll
  rw [List.mem_map]
  constructor
  · rintro ⟨q, hq, he⟩
    refine ⟨q, hq, ?_⟩
    by_cases hc : c q.1 q.2 <;> simp [hc] at he ⊢ <;> exact he.symm
  · rintro ⟨q, hq, he⟩
    refine ⟨q, hq, ?_⟩
    by_cases hc : c q.1 q.2 <;> simp [hc] at he ⊢ <;> exact he.symm

theorem slookup_supdateAll {α : Type} (s : Store α) (c : String → α → Bool)
    (f : α → α) (k : String) :
    slookup (supdateAll s c f) k =
      (slookup s k).map (fun v => if c k v = true then f v else v) := by
  induction s with
  | nil => simp [supdateAll, slookup]
  | cons p rest ih =>
    by_cases hk : p.1 = k
    · subst hk
      by_cases hc : c p.1 p.2 <;> simp [supdateAll, slookup, hc] at ih ⊢
    · by_cases hc : c p.1 p.2 <;>
        simpa [supdateAll, slookup, hc, hk] using ih

theorem keys_supdateAll {α : Type} (s : Store α) (c : String → α → Bool)
    (f : α → α) :
    (supdateAll s c f).map Prod.fst = s.map Prod.fst := by
  unfold supdateAll
  rw [List.map_map]
  apply List.map_congr_left
  intro p _
  by_cases hc : c p.1 p.2 <;> simp [hc]

theorem slookup_supdate {α : Type} (s : Store α) (k0 : String) (f : α → α)
    (k : String) :
    slookup (supdate s k0 f) k =
      (slookup s k).map (fun v => if k = k0 then f v else v) := by
  unfold supdate
  rw [slookup_supdateAll]
  by_cases hk : k = k0 <;> simp [hk]

theorem mem_supdate_iff {α : Type} {s : Store α} {k0 : String} {f : α → α}
    {p : String × α} :
    p ∈ supdate s k0 f ↔
      ∃ q, q ∈ s ∧ p = (q.1, if q.1 = k0 then f q.2 else q.2) := by
  unfold supdate
  rw [mem_supdateAll_iff]
  constructor <;> rintro ⟨q, hq, he⟩ <;> refine ⟨q, hq, ?_⟩ <;>
    by_cases hk : q.1 = k0 <;> simp [hk] at he ⊢ <;> exact he

theorem mem_sdelete_iff {α : Type} {s : Store α} {k : String}
    {p : String × α} : p ∈ sdelete s k ↔ p ∈ s ∧ p.1 ≠ k := by
  unfold sdelete
  rw [List.mem_filter]
  simp

theorem supdate_of_absent {α : Type} {s : Store α} {k : String} (f : α → α)
    (h : slookup s k = none) : supdate s k f = s := by
  have hk : k ∉ s.map Prod.fst := slookup_eq_none_iff.mp h
  unfold supdate supdateAll
  have hcong :
      ∀ p ∈ s,
        (if (fun k2 (_ : α) => k2 == k) p.1 p.2 = true then (p.1, f p.2) else p)
          = id p := by
    intro p hp
    have hne : p.1 ≠ k := by
      intro he
      exact hk (he ▸ List.mem_map_of_mem Prod.fst hp)
    simp [hne]
  rw [List.map_congr_left hcong, List.map_id]

/-! ### Sample documents used by concrete witness states -/

/-- A well-formed sample task. -/
abbrev sampleTask : Task :=
  { name := "T1", description := "", deadline := "2025-01-01",
    completed := false, assignedUser := "", assignedUserName := "unassigned",
    dateCreated := "2024-01-01" }

/-- A well-formed sample user. -/
abbrev sampleUser : User :=
  { name := "Alice", email := "a@x.com", pendingTasks := [],
    dateCreated := "2024-01-01" }

/-- C6: the Name Resolver is a total function: an empty user id yields
"unassigned" regardless of the store contents (no lookup is needed), and a
non-empty id whose lookup misses also yields "unassigned"; absence is data,
not an error. -/
theorem resolveUserName_total_defaults (uid : String) (users : Store User)
    (hne : uid ≠ "") (hmiss : slookup users uid = none) :
    resolveUserName "" users = "unassigned" ∧
    resolveUserName uid users = "unassigned" := by
  constructor
  · simp [resolveUserName]
  · simp [resolveUserName, hne, hmiss]

theorem resolveUserName_total_defaults_witness :
    ("u9" : String) ≠ "" ∧ slookup ([(("u1" : String), sampleUser)]) "u9" = none ∧
      (resolveUserName "" [("u1", sampleUser)] = "unassigned" ∧
        resolveUserName "u9" [("u1", sampleUser)] = "unassigned") :=
  ⟨by decide, by decide,
    resolveUserName_total_defaults "u9" [("u1", sampleUser)] (by decide) (by decide)⟩

/-- C8: a Task list request with no explicit limit and count not requested
returns at most 100 documents however many match; a User list request with
no explicit limit is not truncated at all. -/
theorem taskList_default_cap (tdocs : List Task) (tw : Task → Bool)
    (tsort : List Task → List Task) (udocs : List User) (uw : User → Bool)
    (usort : List User → List User) (q : ListQuery)
    (hc : q.count ≠ some "true") (hl : q.limit.getD "" = "") :
    (runListQuery tdocs tw tsort q true).length ≤ 100 ∧
    runListQuery udocs uw usort q false =
      (usort (udocs.filter uw)).drop (querySkip q) := by
  have hql : queryLimit q true = some 100 := by simp [queryLimit, hc, hl]
  have hqlu : queryLimit q false = none := by simp [queryLimit, hc, hl]
  constructor
  · rw [runListQuery, hql]
    have he : applyLimit (some 100) ((tsort (tdocs.filter tw)).drop (querySkip q))
        = ((tsort (tdocs.filter tw)).drop (querySkip q)).take 100 := rfl
    rw [he]
    exact List.length_take_le 100 ((tsort (tdocs.filter tw)).drop (querySkip q))
  · rw [runListQuery, hqlu]
    rfl

theorem taskList_default_cap_witness :
    (ListQuery.mk none none none).count ≠ some "true" ∧
    (ListQuery.mk none none none).limit.getD "" = "" ∧
    ((runListQuery (List.replicate 150 sampleTask) (fun _ => true) id
        (ListQuery.mk none none none) true).length ≤ 100 ∧
      runListQuery [sampleUser] (fun _ => true) id
          (ListQuery.mk none none none) false =
        (id ([sampleUser].filter (fun _ => true))).drop
          (querySkip (ListQuery.mk none none none))) :=
  ⟨by decide, by decide,
    taskList_default_cap (List.replicate 150 sampleTask) (fun _ => true) id
      [sampleUser] (fun _ => true) id (ListQuery.mk none none none)
      (by decide) (by decide)⟩

/-- C7: CreateTask with required fields present and a non-empty
`assignedUser` that resolves to no existing User still succeeds (never
NotFoundError): the raw id is stored on the new Task, `assignedUserName`
denormalizes to "unassigned", and no User document is touched. -/
theorem createTask_dangling_assignedUser (newId now a : String) (b : TaskBody)
    (db : DB) (hn : falsyStr b.name = false) (hd : falsyStr b.deadline = false)
    (ha : b.assignedUser = some a) (hane : a ≠ "")
    (hmiss : slookup db.users a = none) :
    (createTask newId now b db).1 = Outcome.created ∧
    slookup (createTask newId now b db).2.tasks newId =
      some { name := b.name.getD "", description := b.description.getD "",
             deadline := b.deadline.getD "",
             completed := b.completed.getD false,
             assignedUser := a, assignedUserName := "unassigned",
             dateCreated := b.dateCreated.getD now } ∧
    (createTask newId now b db).2.users = db.users := by
  have hval : (falsyStr b.name || falsyStr b.deadline) = false := by
    rw [hn, hd]
    rfl
  have hres : resolveUserName a db.users = "unassigned" := by
    simp [resolveUserName, hane, hmiss]
  have husers : addPendingToUser a newId db.users = db.users := by
    unfold addPendingToUser
    by_cases hid : newId = ""
    · simp [hid]
    · have hor : ¬(a = "" ∨ newId = "") := by simp [hane, hid]
      rw [if_neg hor]
      exact supdate_of_absent _ hmiss
  by_cases hcond : a ≠ "" ∧ b.completed.getD false = false
  · simp [createTask, hval, hres, ha, hcond, husers, slookup]
  · simp [createTask, hval, hres, ha, hcond, slookup]

theorem createTask_dangling_assignedUser_witness :
    falsyStr (TaskBody.mk (some "T2") none (some "2025-02-02") none (some "ghost") none).name = false ∧
    falsyStr (TaskBody.mk (some "T2") none (some "2025-02-02") none (some "ghost") none).deadline = false ∧
    (TaskBody.mk (some "T2") none (some "2025-02-02") none (some "ghost") none).assignedUser = some "ghost" ∧
    ("ghost" : String) ≠ "" ∧
    slookup (DB.mk [("u1", sampleUser)] []).users "ghost" = none ∧
    ((createTask "t2" "2025-01-02"
        (TaskBody.mk (some "T2") none (some "2025-02-02") none (some "ghost") none)
        (DB.mk [("u1", sampleUser)] [])).1 = Outcome.created ∧
      slookup (createTask "t2" "2025-01-02"
          (TaskBody.mk (some "T2") none (some "2025-02-02") none (some "ghost") none)
          (DB.mk [("u1", sampleUser)] [])).2.tasks "t2" =
        some { name := "T2", description := "", deadline := "2025-02-02",
               completed := false, assignedUser := "ghost",
               assignedUserName := "unassigned", dateCreated := "2025-01-02" } ∧
      (createTask "t2" "2025-01-02"
          (TaskBody.mk (some "T2") none (some "2025-02-02") none (some "ghost") none)
          (DB.mk [("u1", sampleUser)] [])).2.users =
        (DB.mk [("u1", sampleUser)] []).users) := by
  refine ⟨by decide, by decide, by decide, by decide, by decide, ?_⟩
  have h := createTask_dangling_assignedUser "t2" "2025-01-02" "ghost"
    (TaskBody.mk (some "T2") none (some "2025-02-02") none (some "ghost") none)
    (DB.mk [("u1", sampleUser)] []) (by decide) (by decide) (by decide)
    (by decide) (by decide)
  simpa using h

/-- C10: required-field validation runs before any store access: a payload
missing a required field makes each of the four create/update endpoints
return the validation error with the database unchanged — in particular an
update on a nonexistent id with missing fields yields the validation
error, not NotFoundError. -/
theorem validation_runs_before_store (uid tid newUid newTid now : String)
    (ub : UserBody) (tb : TaskBody) (db : DB)
    (hu : (falsyStr ub.name || falsyStr ub.email) = true)
    (ht : (falsyStr tb.name || falsyStr tb.deadline) = true) :
    createUser newUid now ub db = (Outcome.validationError, db) ∧
    updateUser uid ub db = (Outcome.validationError, db) ∧
    createTask newTid now tb db = (Outcome.validationError, db) ∧
    updateTask tid tb db = (Outcome.validationError, db) := by
  refine ⟨?_, ?_, ?_, ?_⟩ <;>
    simp [createUser, updateUser, createTask, updateTask, hu, ht]

theorem validation_runs_before_store_witness :
    (falsyStr (UserBody.mk none (some "b@x.com") none none).name ||
      falsyStr (UserBody.mk none (some "b@x.com") none none).email) = true ∧
    (falsyStr (TaskBody.mk (some "T") none none none none none).name ||
      falsyStr (TaskBody.mk (some "T") none none none none none).deadline) = true ∧
    (createUser "u7" "now" (UserBody.mk none (some "b@x.com") none none)
        (DB.mk [] []) = (Outcome.validationError, DB.mk [] []) ∧
      updateUser "missing" (UserBody.mk none (some "b@x.com") none none)
        (DB.mk [] []) = (Outcome.validationError, DB.mk [] []) ∧
      createTask "t7" "now" (TaskBody.mk (some "T") none none none none none)
        (DB.mk [] []) = (Outcome.validationError, DB.mk [] []) ∧
      updateTask "missing" (TaskBody.mk (some "T") none none none none none)
        (DB.mk [] []) = (Outcome.validationError, DB.mk [] [])) :=
  ⟨by decide, by decide,
    validation_runs_before_store "missing" "missing" "u7" "t7" "now"
      (UserBody.mk none (some "b@x.com") none none)
      (TaskBody.mk (some "T") none none none none none)
      (DB.mk [] []) (by decide) (by decide)⟩

/-! ### Characterizing the task-side writes of PUT /users/:id -/

theorem mem_removed_iff (prevPend pend : List String) (x : String) :
    x ∈ prevPend.filter (fun y => !(pend.contains y)) ↔
      x ∈ prevPend ∧ x ∉ pend := by
  rw [List.mem_filter]
  simp

theorem mem_added_iff (prevPend pend : List String) (x : String) :
    x ∈ pend.filter (fun y => !(prevPend.contains y)) ↔
      x ∈ pend ∧ x ∉ prevPend := by
  rw [List.mem_filter]
  simp

theorem slookup_updateUserSyncTasks (id uname : String)
    (prevPend pend : List String) (tasks : Store Task) (x : String) :
    slookup (updateUserSyncTasks id uname prevPend pend tasks) x =
      (slookup tasks x).map (fun t =>
        if x ∈ pend ∧ x ∉ prevPend then assignTo id uname t
        else if x ∈ prevPend ∧ x ∉ pend ∧ t.assignedUser = id then
          clearAssignment t
        else t) := by
  unfold updateUserSyncTasks
  rw [slookup_supdateAll, slookup_supdateAll]
  cases h : slookup tasks x with
  | none => rfl
  | some t =>
    simp only [Option.map_some']
    congr 1
    by_cases hp : x ∈ pend <;> by_cases hq : x ∈ prevPend <;>
      by_cases ha : t.assignedUser = id <;>
        simp [mem_removed_iff, mem_added_iff, hp, hq, ha, List.elem_iff,
          clearAssignment]

theorem updateUser_run (id : String) (b : UserBody) (db : DB) (prev : User)
    (pend : List String) (hv : (falsyStr b.name || falsyStr b.email) = false)
    (hprev : slookup db.users id = some prev) (hp : b.pendingTasks = some pend) :
    updateUser id b db =
      (Outcome.ok,
        { users := supdate db.users id (fun _ =>
            { prev with name := b.name.getD "",
                        email := normalizeEmail (b.email.getD ""),
                        pendingTasks := pend }),
          tasks := updateUserSyncTasks id (b.name.getD "") prev.pendingTasks
            pend db.tasks }) := by
  simp [updateUser, hv, hprev, hp]

/-- C3: when an UpdateUser payload drops a task id from pendingTasks, the
Task is cleared back to unassigned only when its `assignedUser` still
equals this user's id; a removed task meanwhile owned by a different user
is left exactly as it was. -/
theorem updateUser_guarded_unassign (id : String) (b : UserBody) (db : DB)
    (prev : User) (pend : List String) (x : String) (t : Task)
    (hv : (falsyStr b.name || falsyStr b.email) = false)
    (hprev : slookup db.users id = some prev) (hp : b.pendingTasks = some pend)
    (hxp : x ∈ prev.pendingTasks) (hxn : x ∉ pend)
    (hxt : slookup db.tasks x = some t) :
    (t.assignedUser = id →
      slookup (updateUser id b db).2.tasks x = some (clearAssignment t)) ∧
    (t.assignedUser ≠ id →
      slookup (updateUser id b db).2.tasks x = some t) := by
  rw [updateUser_run id b db prev pend hv hprev hp]
  constructor <;> intro ha <;>
    rw [slookup_updateUserSyncTasks, hxt] <;>
      simp [hxp, hxn, ha]

theorem updateUser_guarded_unassign_witness :
    (falsyStr (UserBody.mk (some "Alice") (some "a@x.com") (some []) none).name ||
      falsyStr (UserBody.mk (some "Alice") (some "a@x.com") (some []) none).email) = false ∧
    slookup [(("u1" : String), { sampleUser with pendingTasks := ["t1"] })] "u1" =
      some { sampleUser with pendingTasks := ["t1"] } ∧
    (UserBody.mk (some "Alice") (some "a@x.com") (some []) none).pendingTasks =
      some [] ∧
    ("t1" : String) ∈ ({ sampleUser with pendingTasks := ["t1"] } : User).pendingTasks ∧
    ("t1" : String) ∉ ([] : List String) ∧
    slookup [(("t1" : String), { sampleTask with assignedUser := "other" })] "t1" =
      some { sampleTask with assignedUser := "other" } ∧
    ((({ sampleTask with assignedUser := "other" } : Task).assignedUser = "u1" →
      slookup (updateUser "u1" (UserBody.mk (some "Alice") (some "a@x.com") (some []) none)
          (DB.mk [("u1", { sampleUser with pendingTasks := ["t1"] })]
            [("t1", { sampleTask with assignedUser := "other" })])).2.tasks "t1" =
        some (clearAssignment { sampleTask with assignedUser := "other" })) ∧
      (({ sampleTask with assignedUser := "other" } : Task).assignedUser ≠ "u1" →
        slookup (updateUser "u1" (UserBody.mk (some "Alice") (some "a@x.com") (some []) none)
            (DB.mk [("u1", { sampleUser with pendingTasks := ["t1"] })]
              [("t1", { sampleTask with assignedUser := "other" })])).2.tasks "t1" =
          some { sampleTask with assignedUser := "other" })) :=
  ⟨by decide, by decide, by decide, by decide, by decide, by decide,
    updateUser_guarded_unassign "u1"
      (UserBody.mk (some "Alice") (some "a@x.com") (some []) none)
      (DB.mk [("u1", { sampleUser with pendingTasks := ["t1"] })]
        [("t1", { sampleTask with assignedUser := "other" })])
      { sampleUser with pendingTasks := ["t1"] } [] "t1"
      { sampleTask with assignedUser := "other" }
      (by decide) (by decide) (by decide) (by decide) (by decide) (by decide)⟩

/-- C5: UpdateUser's task-side writes are exactly the symmetric difference
of the old and new pendingTasks sets: an id in both lists leaves its Task
document completely untouched, an added id is assigned to this user, a
removed id is unassigned subject to the ownership guard, and an id in
neither list is untouched. -/
theorem updateUser_symmetric_difference (id : String) (b : UserBody) (db : DB)
    (prev : User) (pend : List String) (x : String)
    (hv : (falsyStr b.name || falsyStr b.email) = false)
    (hprev : slookup db.users id = some prev)
    (hp : b.pendingTasks = some pend) :
    (x ∈ pend → x ∈ prev.pendingTasks →
      slookup (updateUser id b db).2.tasks x = slookup db.tasks x) ∧
    (x ∈ pend → x ∉ prev.pendingTasks →
      slookup (updateUser id b db).2.tasks x =
        (slookup db.tasks x).map (assignTo id (b.name.getD ""))) ∧
    (x ∉ pend → x ∈ prev.pendingTasks → ∀ t, slookup db.tasks x = some t →
      slookup (updateUser id b db).2.tasks x =
        some (if t.assignedUser = id then clearAssignment t else t)) ∧
    (x ∉ pend → x ∉ prev.pendingTasks →
      slookup (updateUser id b db).2.tasks x = slookup db.tasks x) := by
  rw [updateUser_run id b db prev pend hv hprev hp]
  refine ⟨?_, ?_, ?_, ?_⟩
  · intro h1 h2
    rw [slookup_updateUserSyncTasks]
    cases slookup db.tasks x with
    | none => rfl
    | some t => simp [h1, h2]
  · intro h1 h2
    rw [slookup_updateUserSyncTasks]
    cases slookup db.tasks x with
    | none => rfl
    | some t => simp [h1, h2]
  · intro h1 h2 t ht
    rw [slookup_updateUserSyncTasks, ht]
    by_cases ha : t.assignedUser = id <;> simp [h1, h2, ha]
  · intro h1 h2
    rw [slookup_updateUserSyncTasks]
    cases slookup db.tasks x with
    | none => rfl
    | some t => simp [h1, h2]

theorem updateUser_symmetric_difference_witness :
    (falsyStr (UserBody.mk (some "Alice") (some "a@x.com") (some ["t1"]) none).name ||
      falsyStr (UserBody.mk (some "Alice") (some "a@x.com") (some ["t1"]) none).email) = false ∧
    slookup [(("u1" : String), { sampleUser with pendingTasks := ["t1"] })] "u1" =
      some { sampleUser with pendingTasks := ["t1"] } ∧
    (UserBody.mk (some "Alice") (some "a@x.com") (some ["t1"]) none).pendingTasks =
      some ["t1"] ∧
    ((("t1" : String) ∈ (["t1"] : List String) →
        ("t1" : String) ∈ ({ sampleUser with pendingTasks := ["t1"] } : User).pendingTasks →
        slookup (updateUser "u1"
            (UserBody.mk (some "Alice") (some "a@x.com") (some ["t1"]) none)
            (DB.mk [("u1", { sampleUser with pendingTasks := ["t1"] })]
              [("t1", { sampleTask with assignedUser := "u1", assignedUserName := "Alice" })])).2.tasks "t1" =
          slookup [(("t1" : String), { sampleTask with assignedUser := "u1", assignedUserName := "Alice" })] "t1") ∧
      (("t1" : String) ∈ (["t1"] : List String) →
        ("t1" : String) ∉ ({ sampleUser with pendingTasks := ["t1"] } : User).pendingTasks →
        slookup (updateUser "u1"
            (UserBody.mk (some "Alice") (some "a@x.com") (some ["t1"]) none)
            (DB.mk [("u1", { sampleUser with pendingTasks := ["t1"] })]
              [("t1", { sampleTask with assignedUser := "u1", assignedUserName := "Alice" })])).2.tasks "t1" =
          (slookup [(("t1" : String), { sampleTask with assignedUser := "u1", assignedUserName := "Alice" })] "t1").map
            (assignTo "u1" "Alice")) ∧
      (("t1" : String) ∉ (["t1"] : List String) →
        ("t1" : String) ∈ ({ sampleUser with pendingTasks := ["t1"] } : User).pendingTasks →
        ∀ t, slookup [(("t1" : String), { sampleTask with assignedUser := "u1", assignedUserName := "Alice" })] "t1" = some t →
        slookup (updateUser "u1"
            (UserBody.mk (some "Alice") (some "a@x.com") (some ["t1"]) none)
            (DB.mk [("u1", { sampleUser with pendingTasks := ["t1"] })]
              [("t1", { sampleTask with assignedUser := "u1", assignedUserName := "Alice" })])).2.tasks "t1" =
          some (if t.assignedUser = "u1" then clearAssignment t else t)) ∧
      (("t1" : String) ∉ (["t1"] : List String) →
        ("t1" : String) ∉ ({ sampleUser with pendingTasks := ["t1"] } : User).pendingTasks →
        slookup (updateUser "u1"
            (UserBody.mk (some "Alice") (some "a@x.com") (some ["t1"]) none)
            (DB.mk [("u1", { sampleUser with pendingTasks := ["t1"] })]
              [("t1", { sampleTask with assignedUser := "u1", assignedUserName := "Alice" })])).2.tasks "t1" =
          slookup [(("t1" : String), { sampleTask with assignedUser := "u1", assignedUserName := "Alice" })] "t1")) :=
  ⟨by decide, by decide, by decide,
    updateUser_symmetric_difference "u1"
      (UserBody.mk (some "Alice") (some "a@x.com") (some ["t1"]) none)
      (DB.mk [("u1", { sampleUser with pendingTasks := ["t1"] })]
        [("t1", { sampleTask with assignedUser := "u1", assignedUserName := "Alice" })])
      { sampleUser with pendingTasks := ["t1"] } ["t1"] "t1"
      (by decide) (by decide) (by decide)⟩

/-- C4: an UpdateTask that keeps the same non-empty assignee and sets
`completed` to true completes with the assignee's pendingTasks no longer
containing the task id while the task's `assignedUser` is untouched: the
completion-removal step runs after the conditional add, so "assigned and
completed simultaneously" ends in "not pending". -/
theorem updateTask_completed_keeps_assignment (id a : String) (b : TaskBody)
    (db : DB) (prev : Task) (u : User)
    (hv : (falsyStr b.name || falsyStr b.deadline) = false)
    (hprev : slookup db.tasks id = some prev)
    (hpa : prev.assignedUser = a) (hane : a ≠ "") (hid : id ≠ "")
    (hba : b.assignedUser = some a) (hbc : b.completed = some true)
    (hu : slookup db.users a = some u) :
    (updateTask id b db).1 = Outcome.ok ∧
    (∃ t2, slookup (updateTask id b db).2.tasks id = some t2 ∧
      t2.assignedUser = a ∧ t2.completed = true) ∧
    (∃ u2, slookup (updateTask id b db).2.users a = some u2 ∧
      id ∉ u2.pendingTasks) := by
  have hrun : updateTask id b db =
      (Outcome.ok,
        { users := removePendingFromUser a id db.users,
          tasks := supdate db.tasks id (fun _ =>
            mergeTask prev b (resolveUserName a db.users)) }) := by
    simp [updateTask, hv, hprev, hba, hbc, hpa, mergeTask, hane,
      updateTaskSyncUsers]
  rw [hrun]
  refine ⟨rfl, ⟨mergeTask prev b (resolveUserName a db.users), ?_, ?_, ?_⟩, ?_⟩
  · rw [slookup_supdate, hprev]
    simp
  · simp [mergeTask, hba]
  · simp [mergeTask, hbc]
  · refine ⟨{ u with pendingTasks :=
      u.pendingTasks.filter (fun x => x != id) }, ?_, ?_⟩
    · unfold removePendingFromUser
      have hor : ¬(a = "" ∨ id = "") := by simp [hane, hid]
      rw [if_neg hor, slookup_supdate, hu]
      simp
    · simp

theorem updateTask_completed_keeps_assignment_witness :
    (falsyStr (TaskBody.mk (some "T1") none (some "2025-01-01") (some true) (some "u1") none).name ||
      falsyStr (TaskBody.mk (some "T1") none (some "2025-01-01") (some true) (some "u1") none).deadline) = false ∧
    slookup [(("t1" : String), { sampleTask with assignedUser := "u1", assignedUserName := "Alice" })] "t1" =
      some { sampleTask with assignedUser := "u1", assignedUserName := "Alice" } ∧
    ({ sampleTask with assignedUser := "u1", assignedUserName := "Alice" } : Task).assignedUser = "u1" ∧
    ("u1" : String) ≠ "" ∧ ("t1" : String) ≠ "" ∧
    (TaskBody.mk (some "T1") none (some "2025-01-01") (some true) (some "u1") none).assignedUser = some "u1" ∧
    (TaskBody.mk (some "T1") none (some "2025-01-01") (some true) (some "u1") none).completed = some true ∧
    slookup [(("u1" : String), { sampleUser with pendingTasks := ["t1"] })] "u1" =
      some { sampleUser with pendingTasks := ["t1"] } ∧
    ((updateTask "t1" (TaskBody.mk (some "T1") none (some "2025-01-01") (some true) (some "u1") none)
        (DB.mk [("u1", { sampleUser with pendingTasks := ["t1"] })]
          [("t1", { sampleTask with assignedUser := "u1", assignedUserName := "Alice" })])).1 = Outcome.ok ∧
      (∃ t2, slookup (updateTask "t1" (TaskBody.mk (some "T1") none (some "2025-01-01") (some true) (some "u1") none)
          (DB.mk [("u1", { sampleUser with pendingTasks := ["t1"] })]
            [("t1", { sampleTask with assignedUser := "u1", assignedUserName := "Alice" })])).2.tasks "t1" =
          some t2 ∧ t2.assignedUser = "u1" ∧ t2.completed = true) ∧
      (∃ u2, slookup (updateTask "t1" (TaskBody.mk (some "T1") none (some "2025-01-01") (some true) (some "u1") none)
          (DB.mk [("u1", { sampleUser with pendingTasks := ["t1"] })]
            [("t1", { sampleTask with assignedUser := "u1", assignedUserName := "Alice" })])).2.users "u1" =
          some u2 ∧ ("t1" : String) ∉ u2.pendingTasks)) :=
  ⟨by decide, by decide, by decide, by decide, by decide, by decide, by decide,
    by decide,
    updateTask_completed_keeps_assignment "t1" "u1"
      (TaskBody.mk (some "T1") none (some "2025-01-01") (some true) (some "u1") none)
      (DB.mk [("u1", { sampleUser with pendingTasks := ["t1"] })]
        [("t1", { sampleTask with assignedUser := "u1", assignedUserName := "Alice" })])
      { sampleTask with assignedUser := "u1", assignedUserName := "Alice" }
      { sampleUser with pendingTasks := ["t1"] }
      (by decide) (by decide) (by decide) (by decide) (by decide) (by decide)
      (by decide) (by decide)⟩

/-! ### C2: the claimed full-replacement semantics of UpdateTask -/

/-- Concrete state for the UpdateTask merge-vs-replace bug: task t1 is
assigned to existing user u1. -/
abbrev dbMerge : DB :=
  DB.mk [("u1", { sampleUser with pendingTasks := ["t1"] })]
    [("t1", { sampleTask with assignedUser := "u1", assignedUserName := "Alice" })]

/-- C2 (code-bug evidence): an UpdateTask whose payload omits
`assignedUser` completes, yet the stored task keeps its previous
`assignedUser` ("u1", not the claimed empty string) while
`assignedUserName` is still resolved from the omitted value and becomes
"unassigned": `findByIdAndUpdate` performs a `$set` merge, so the computed
`newAssignedUser = req.body.assignedUser || ''` is never written. -/
theorem updateTask_omitted_assignedUser_not_cleared :
    (updateTask "t1" (TaskBody.mk (some "T1") none (some "2025-01-01") none none none) dbMerge).1 =
      Outcome.ok ∧
    (slookup (updateTask "t1"
        (TaskBody.mk (some "T1") none (some "2025-01-01") none none none)
        dbMerge).2.tasks "t1").map Task.assignedUser = some "u1" ∧
    (slookup (updateTask "t1"
        (TaskBody.mk (some "T1") none (some "2025-01-01") none none none)
        dbMerge).2.tasks "t1").map Task.assignedUserName = some "unassigned" := by
  decide

/-! ### C9: immutability of dateCreated under updates -/

/-- Concrete state for the dateCreated overwrite: one task created at
2024-01-01. -/
abbrev dbStamp : DB := DB.mk [] [("t1", sampleTask)]

/-- C9 (counterexample): an UpdateTask replacement payload that itself
carries a `dateCreated` field overwrites the stored `dateCreated`, because
the handler spreads `req.body` into the `$set` document. -/
theorem updateTask_overwrites_dateCreated :
    (slookup dbStamp.tasks "t1").map Task.dateCreated = some "2024-01-01" ∧
    (updateTask "t1" (TaskBody.mk (some "T1") none (some "2025-01-01") none none (some "1999-12-31")) dbStamp).1 =
      Outcome.ok ∧
    (slookup (updateTask "t1"
        (TaskBody.mk (some "T1") none (some "2025-01-01") none none (some "1999-12-31"))
        dbStamp).2.tasks "t1").map Task.dateCreated = some "1999-12-31" := by
  decide

theorem dateCreated_addPendingToUser (userId taskId : String)
    (users : Store User) (k : String) :
    (slookup (addPendingToUser userId taskId users) k).map User.dateCreated =
      (slookup users k).map User.dateCreated := by
  unfold addPendingToUser
  by_cases h : userId = "" ∨ taskId = ""
  · rw [if_pos h]
  · rw [if_neg h, slookup_supdate]
    cases slookup users k with
    | none => rfl
    | some u =>
      by_cases hk : k = userId <;> by_cases hm : taskId ∈ u.pendingTasks <;>
        simp [hk, hm]

theorem dateCreated_removePendingFromUser (userId taskId : String)
    (users : Store User) (k : String) :
    (slookup (removePendingFromUser userId taskId users) k).map User.dateCreated =
      (slookup users k).map User.dateCreated := by
  unfold removePendingFromUser
  by_cases h : userId = "" ∨ taskId = ""
  · rw [if_pos h]
  · rw [if_neg h, slookup_supdate]
    cases slookup users k with
    | none => rfl
    | some u => by_cases hk : k = userId <;> simp [hk]

theorem dateCreated_updateTaskSyncUsers (id pu nu : String) (comp : Bool)
    (users : Store User) (k : String) :
    (slookup (updateTaskSyncUsers id pu nu comp users) k).map User.dateCreated =
      (slookup users k).map User.dateCreated := by
  unfold updateTaskSyncUsers
  by_cases c1 : pu ≠ "" ∧ pu ≠ nu <;> by_cases c2 : nu ≠ "" ∧ comp = false <;>
    by_cases c3 : comp = true ∧ nu ≠ "" <;>
      simp [c1, c2, c3, dateCreated_addPendingToUser,
        dateCreated_removePendingFromUser]

/-- C9 (amended): UpdateUser never changes any stored document's
`dateCreated`; UpdateTask leaves every stored document's `dateCreated`
unchanged provided the replacement payload does not itself carry a
`dateCreated` field. -/
theorem dateCreated_immutable (uid tid : String) (ub : UserBody)
    (tb : TaskBody) (db : DB) (htb : tb.dateCreated = none) :
    ((slookup (updateUser uid ub db).2.users uid).map User.dateCreated =
        (slookup db.users uid).map User.dateCreated ∧
      ∀ k, (slookup (updateUser uid ub db).2.tasks k).map Task.dateCreated =
        (slookup db.tasks k).map Task.dateCreated) ∧
    ((slookup (updateTask tid tb db).2.tasks tid).map Task.dateCreated =
        (slookup db.tasks tid).map Task.dateCreated ∧
      ∀ k, (slookup (updateTask tid tb db).2.users k).map User.dateCreated =
        (slookup db.users k).map User.dateCreated) := by
  constructor
  · by_cases hv : (falsyStr ub.name || falsyStr ub.email) = true
    · simp [updateUser, hv]
    · rw [Bool.not_eq_true] at hv
      cases hprev : slookup db.users uid with
      | none => simp [updateUser, hv, hprev]
      | some prev =>
        cases hp : ub.pendingTasks with
        | none =>
          constructor
          · simp only [updateUser, hv, hprev, hp]
            simp [slookup_supdate, hprev]
          · intro k
            simp [updateUser, hv, hprev, hp]
        | some pend =>
          rw [updateUser_run uid ub db prev pend hv hprev hp]
          constructor
          · rw [slookup_supdate, hprev]
            simp
          · intro k
            rw [slookup_updateUserSyncTasks]
            cases slookup db.tasks k with
            | none => rfl
            | some t =>
              by_cases h1 : k ∈ pend ∧ k ∉ prev.pendingTasks
              · simp [h1, assignTo]
              · by_cases h2 : k ∈ prev.pendingTasks ∧ k ∉ pend ∧
                  t.assignedUser = uid
                · simp [h1, h2, clearAssignment]
                · simp [h1, h2]
  · by_cases hv : (falsyStr tb.name || falsyStr tb.deadline) = true
    · simp [updateTask, hv]
    · rw [Bool.not_eq_true] at hv
      cases hprev : slookup db.tasks tid with
      | none => simp [updateTask, hv, hprev]
      | some prev =>
        constructor
        · simp only [updateTask, hv, Bool.false_eq_true, if_false, hprev]
          rw [slookup_supdate, hprev]
          simp [mergeTask, htb]
        · intro k
          simp [updateTask, hv, hprev, dateCreated_updateTaskSyncUsers]

theorem dateCreated_immutable_witness :
    (TaskBody.mk (some "T1") none (some "2025-01-01") none none none).dateCreated = none ∧
    (((slookup (updateUser "u1" (UserBody.mk (some "Bob") (some "b@x.com") none none) dbMerge).2.users "u1").map User.dateCreated =
        (slookup dbMerge.users "u1").map User.dateCreated ∧
      ∀ k, (slookup (updateUser "u1" (UserBody.mk (some "Bob") (some "b@x.com") none none) dbMerge).2.tasks k).map Task.dateCreated =
        (slookup dbMerge.tasks k).map Task.dateCreated) ∧
    ((slookup (updateTask "t1" (TaskBody.mk (some "T1") none (some "2025-01-01") none none none) dbMerge).2.tasks "t1").map Task.dateCreated =
        (slookup dbMerge.tasks "t1").map Task.dateCreated ∧
      ∀ k, (slookup (updateTask "t1" (TaskBody.mk (some "T1") none (some "2025-01-01") none none none) dbMerge).2.users k).map User.dateCreated =
        (slookup dbMerge.users k).map User.dateCreated)) :=
  ⟨by decide,
    dateCreated_immutable "u1" "t1"
      (UserBody.mk (some "Bob") (some "b@x.com") none none)
      (TaskBody.mk (some "T1") none (some "2025-01-01") none none none)
      dbMerge (by decide)⟩

/-! ### Toolkit for the invariant-preservation proof (C1) -/

theorem count_filter_ne {l : List String} {a b : String} (h : a ≠ b) :
    (l.filter (fun x => x != b)).count a = l.count a := by
  rw [List.count_filter]
  simp [h]

theorem not_mem_filter_ne (l : List String) (b : String) :
    b ∉ l.filter (fun x => x != b) := by
  simp

theorem count_append_single_ne {l : List String} {a b : String} (h : a ≠ b) :
    (l ++ [b]).count a = l.count a := by
  simp [List.count_append, List.count_singleton', Ne.symm h]

theorem count_append_single_self (l : List String) (b : String) :
    (l ++ [b]).count b = l.count b + 1 := by
  simp [List.count_append, List.count_singleton']

theorem keys_addPendingToUser (a tid : String) (users : Store User) :
    (addPendingToUser a tid users).map Prod.fst = users.map Prod.fst := by
  unfold addPendingToUser
  by_cases h : a = "" ∨ tid = ""
  · rw [if_pos h]
  · rw [if_neg h]
    exact keys_supdateAll users _ _

theorem keys_removePendingFromUser (a tid : String) (users : Store User) :
    (removePendingFromUser a tid users).map Prod.fst = users.map Prod.fst := by
  unfold removePendingFromUser
  by_cases h : a = "" ∨ tid = ""
  · rw [if_pos h]
  · rw [if_neg h]
    exact keys_supdateAll users _ _

theorem keys_updateTaskSyncUsers (id pu nu : String) (comp : Bool)
    (users : Store User) :
    (updateTaskSyncUsers id pu nu comp users).map Prod.fst =
      users.map Prod.fst := by
  unfold updateTaskSyncUsers
  by_cases c1 : pu ≠ "" ∧ pu ≠ nu <;> by_cases c2 : nu ≠ "" ∧ comp = false <;>
    by_cases c3 : comp = true ∧ nu ≠ "" <;>
      simp [c1, c2, c3, keys_addPendingToUser, keys_removePendingFromUser]

/-- Pull and push target only the user with the matching key, so a lookup
of any key sees at most a transformation of its own document. -/
theorem slookup_addPendingToUser {a tid : String} (users : Store User)
    (k : String) (ha : a ≠ "") (htid : tid ≠ "") :
    slookup (addPendingToUser a tid users) k =
      (slookup users k).map (fun u =>
        if k = a then
          (if tid ∈ u.pendingTasks then u
           else { u with pendingTasks := u.pendingTasks ++ [tid] })
        else u) := by
  unfold addPendingToUser
  have hor : ¬(a = "" ∨ tid = "") := by simp [ha, htid]
  rw [if_neg hor, slookup_supdate]

theorem slookup_removePendingFromUser {a tid : String} (users : Store User)
    (k : String) (ha : a ≠ "") (htid : tid ≠ "") :
    slookup (removePendingFromUser a tid users) k =
      (slookup users k).map (fun u =>
        if k = a then
          { u with pendingTasks := u.pendingTasks.filter (fun x => x != tid) }
        else u) := by
  unfold removePendingFromUser
  have hor : ¬(a = "" ∨ tid = "") := by simp [ha, htid]
  rw [if_neg hor, slookup_supdate]

/-- Under `StrongRef`, a task id listed by a user is owned by that user. -/
theorem strongref_unique_owner {db : DB} (hsr : StrongRef db)
    (hnt : (db.tasks.map Prod.fst).Nodup) {uid : String} {u : User}
    {tid : String} {t : Task} (hu : (uid, u) ∈ db.users)
    (ht : (tid, t) ∈ db.tasks) (hm : tid ∈ u.pendingTasks) :
    t.assignedUser = uid := by
  rcases hsr (uid, u) hu tid hm with ⟨q, hq, hk, hass⟩
  have : q.2 = t := by
    have hq2 : (tid, q.2) ∈ db.tasks := by
      have : q = (tid, q.2) := by
        cases q
        simp at hk
        simp [hk]
      exact this ▸ hq
    exact key_unique hnt hq2 ht
  rw [← this, hass]

/-- Frame relation for the user store: every surviving entry keeps its key
and its pendingTasks counts for every element other than `tid`. -/
def PendSim (tid : String) (base top : Store User) : Prop :=
  ∀ p ∈ top, ∃ p0, p0 ∈ base ∧ (p : String × User).1 = p0.1 ∧
    ∀ x, x ≠ tid →
      (p : String × User).2.pendingTasks.count x = p0.2.pendingTasks.count x

theorem pendSim_refl (tid : String) (users : Store User) :
    PendSim tid users users := by
  intro p hp
  exact ⟨p, hp, rfl, fun x _ => rfl⟩

theorem pendSim_trans {tid : String} {u1 u2 u3 : Store User}
    (h12 : PendSim tid u1 u2) (h23 : PendSim tid u2 u3) :
    PendSim tid u1 u3 := by
  intro p hp
  rcases h23 p hp with ⟨q, hq, hk, hc⟩
  rcases h12 q hq with ⟨r, hr, hk2, hc2⟩
  exact ⟨r, hr, hk.trans hk2, fun x hx => (hc x hx).trans (hc2 x hx)⟩

theorem pendSim_addPendingToUser (a tid : String) (users : Store User) :
    PendSim tid users (addPendingToUser a tid users) := by
  unfold addPendingToUser
  by_cases h : a = "" ∨ tid = ""
  · rw [if_pos h]
    exact pendSim_refl tid users
  · rw [if_neg h]
    intro p hp
    rcases mem_supdate_iff.mp hp with ⟨p0, hp0, he⟩
    by_cases hk : p0.1 = a
    · by_cases hm : tid ∈ p0.2.pendingTasks
      · refine ⟨p0, hp0, ?_, ?_⟩ <;> simp [he, hk, hm]
      · refine ⟨p0, hp0, ?_, ?_⟩
        · simp [he, hk, hm]
        · intro x hx
          rw [he]
          simp [hk, hm, count_append_single_ne hx]
    · refine ⟨p0, hp0, ?_, ?_⟩ <;> simp [he, hk]

theorem pendSim_removePendingFromUser (a tid : String) (users : Store User) :
    PendSim tid users (removePendingFromUser a tid users) := by
  unfold removePendingFromUser
  by_cases h : a = "" ∨ tid = ""
  · rw [if_pos h]
    exact pendSim_refl tid users
  · rw [if_neg h]
    intro p hp
    rcases mem_supdate_iff.mp hp with ⟨p0, hp0, he⟩
    by_cases hk : p0.1 = a
    · refine ⟨p0, hp0, ?_, ?_⟩
      · simp [he, hk]
      · intro x hx
        rw [he]
        simp [hk, count_filter_ne hx]
    · refine ⟨p0, hp0, ?_, ?_⟩ <;> simp [he, hk]

theorem pendSim_ite_remove {tid : String} {base s : Store User} (c : Prop)
    [Decidable c] (a : String) (h : PendSim tid base s) :
    PendSim tid base (if c then removePendingFromUser a tid s else s) := by
  by_cases hc : c
  · rw [if_pos hc]
    exact pendSim_trans h (pendSim_removePendingFromUser a tid s)
  · rw [if_neg hc]
    exact h

theorem pendSim_ite_add {tid : String} {base s : Store User} (c : Prop)
    [Decidable c] (a : String) (h : PendSim tid base s) :
    PendSim tid base (if c then addPendingToUser a tid s else s) := by
  by_cases hc : c
  · rw [if_pos hc]
    exact pendSim_trans h (pendSim_addPendingToUser a tid s)
  · rw [if_neg hc]
    exact h

theorem pendSim_updateTaskSyncUsers (id pu nu : String) (comp : Bool)
    (users : Store User) :
    PendSim id users (updateTaskSyncUsers id pu nu comp users) := by
  unfold updateTaskSyncUsers
  exact pendSim_ite_remove _ _
    (pendSim_ite_add _ _ (pendSim_ite_remove _ _ (pendSim_refl id users)))

/-- Membership transfer along `PendSim` for elements other than `tid`. -/
theorem PendSim.mem_pend_iff {tid : String} {base top : Store User}
    (h : PendSim tid base top) {p : String × User} (hp : p ∈ top)
    {x : String} (hx : x ≠ tid) :
    ∃ p0, p0 ∈ base ∧ p.1 = p0.1 ∧
      (x ∈ p.2.pendingTasks ↔ x ∈ p0.2.pendingTasks) := by
  rcases h p hp with ⟨p0, hp0, hk, hc⟩
  refine ⟨p0, hp0, hk, ?_⟩
  rw [← List.count_pos_iff, ← List.count_pos_iff, hc x hx]

theorem mem_of_count_eq_one {l : List String} {a : String}
    (h : l.count a = 1) : a ∈ l :=
  List.count_pos_iff.mp (by omega)

/-- With `completed = false`, the reconciliation chain's effect on the new
assignee is exactly the idempotent push (the step-1 pull targets a
different user). -/
theorem slookup_updateTaskSyncUsers_next (id pu nu : String)
    (users : Store User) (hnu : nu ≠ "") (hid : id ≠ "") :
    slookup (updateTaskSyncUsers id pu nu false users) nu =
      (slookup users nu).map (fun u =>
        if id ∈ u.pendingTasks then u
        else { u with pendingTasks := u.pendingTasks ++ [id] }) := by
  unfold updateTaskSyncUsers
  rw [if_neg (by simp), if_pos ⟨hnu, rfl⟩,
    slookup_addPendingToUser _ _ hnu hid]
  by_cases c1 : pu ≠ "" ∧ pu ≠ nu
  · rw [if_pos c1, slookup_removePendingFromUser _ _ c1.1 hid]
    cases h : slookup users nu with
    | none => rfl
    | some u => simp [Ne.symm c1.2]
  · rw [if_neg c1]
    cases h : slookup users nu with
    | none => rfl
    | some u => simp

/-- With an empty new assignee, only the step-1 pull can fire. -/
theorem updateTaskSyncUsers_empty_next (id pu : String) (comp : Bool)
    (users : Store User) :
    updateTaskSyncUsers id pu "" comp users =
      (if pu ≠ "" then removePendingFromUser pu id users else users) := by
  unfold updateTaskSyncUsers
  rw [if_neg (by simp), if_neg (by simp)]
  by_cases c1 : pu ≠ ""
  · rw [if_pos ⟨c1, c1⟩, if_pos c1]
  · rw [if_neg (by simp [not_not.mp c1]), if_neg c1]

theorem mem_updateUserSyncTasks {id uname : String}
    {prevPend pend : List String} {tasks : Store Task} {q : String × Task}
    (hq : q ∈ updateUserSyncTasks id uname prevPend pend tasks) :
    ∃ q0, q0 ∈ tasks ∧
      q = (q0.1,
        if q0.1 ∈ pend ∧ q0.1 ∉ prevPend then assignTo id uname q0.2
        else if q0.1 ∈ prevPend ∧ q0.1 ∉ pend ∧ q0.2.assignedUser = id then
          clearAssignment q0.2
        else q0.2) := by
  unfold updateUserSyncTasks at hq
  rcases mem_supdateAll_iff.mp hq with ⟨q1, hq1, he1⟩
  rcases mem_supdateAll_iff.mp hq1 with ⟨q0, hq0, he0⟩
  subst he0
  refine ⟨q0, hq0, ?_⟩
  rw [he1]
  by_cases hp : q0.1 ∈ pend <;> by_cases hq' : q0.1 ∈ prevPend <;>
    by_cases ha : q0.2.assignedUser = id <;>
      simp [mem_removed_iff, mem_added_iff, hp, hq', ha, List.elem_iff,
        clearAssignment, assignTo]

/-- Rules 1 and 3 are preserved by DeleteUser. -/
theorem rule13_deleteUser (id : String) (db : DB)
    (hwf : WF db) (hinv : Inv db) (hsr : StrongRef db) :
    Rule1 (deleteUser id db).2 ∧ Rule3 (deleteUser id db).2 := by
  obtain ⟨hnu, hnt, hneu, hnet⟩ := hwf
  obtain ⟨h1, h2, h3, _⟩ := hinv
  cases hu : slookup db.users id with
  | none =>
    simp only [deleteUser, hu]
    exact ⟨h1, h3⟩
  | some u0 =>
    simp only [deleteUser, hu]
    constructor
    · intro p hp q hq hass hcomp
      have hp2 : p ∈ sdelete db.users id := hp
      have hq2 : q ∈ supdateAll db.tasks (fun _ t => t.assignedUser == id)
        clearAssignment := hq
      have hpm := mem_sdelete_iff.mp hp2
      rcases mem_supdateAll_iff.mp hq2 with ⟨q0, hq0, he⟩
      by_cases hc : (q0.2.assignedUser == id) = true
      · exfalso
        rw [he] at hass
        simp only [hc, if_pos] at hass
        simp [clearAssignment] at hass
        apply hneu
        rw [hass]
        exact List.mem_map_of_mem Prod.fst hpm.1
      · have he2 : q = (q0.1, q0.2) := by rw [he]; simp [hc]
        rw [he2] at hass hcomp ⊢
        exact h1 p hpm.1 q0 hq0 hass hcomp
    · intro q hq hass p hp
      have hp2 : p ∈ sdelete db.users id := hp
      have hq2 : q ∈ supdateAll db.tasks (fun _ t => t.assignedUser == id)
        clearAssignment := hq
      have hpm := mem_sdelete_iff.mp hp2
      rcases mem_supdateAll_iff.mp hq2 with ⟨q0, hq0, he⟩
      by_cases hc : (q0.2.assignedUser == id) = true
      · have hq1 : q.1 = q0.1 := by rw [he]
        rw [hq1]
        intro hmem
        have hown := strongref_unique_owner hsr hnt hpm.1 hq0 hmem
        rw [beq_iff_eq] at hc
        exact hpm.2 (by rw [← hown, hc])
      · have he2 : q = (q0.1, q0.2) := by rw [he]; simp [hc]
        rw [he2] at hass ⊢
        exact h3 q0 hq0 hass p hpm.1

/-- Rules 1 and 3 are preserved by DeleteTask. -/
theorem rule13_deleteTask (id : String) (db : DB)
    (hwf : WF db) (hinv : Inv db) (_hsr : StrongRef db) :
    Rule1 (deleteTask id db).2 ∧ Rule3 (deleteTask id db).2 := by
  obtain ⟨hnu, hnt, hneu, hnet⟩ := hwf
  obtain ⟨h1, h2, h3, _⟩ := hinv
  cases ht : slookup db.tasks id with
  | none =>
    simp only [deleteTask, ht]
    exact ⟨h1, h3⟩
  | some t0 =>
    have key : ∀ usersF : Store User, PendSim id db.users usersF →
        Rule1 (DB.mk usersF (sdelete db.tasks id)) ∧
        Rule3 (DB.mk usersF (sdelete db.tasks id)) := by
      intro usersF hps
      constructor
      · intro p hp q hq hass hcomp
        have hqm := mem_sdelete_iff.mp hq
        rcases hps p hp with ⟨p0, hp0, hk, hc⟩
        rw [hk] at hass
        rw [hc q.1 hqm.2]
        exact h1 p0 hp0 q hqm.1 hass hcomp
      · intro q hq hass p hp
        have hqm := mem_sdelete_iff.mp hq
        rcases hps.mem_pend_iff hp hqm.2 with ⟨p0, hp0, hk, hmi⟩
        rw [hmi]
        exact h3 q hqm.1 hass p0 hp0
    simp only [deleteTask, ht]
    by_cases hc0 : t0.assignedUser ≠ ""
    · rw [if_pos hc0]
      exact key _ (pendSim_removePendingFromUser _ id db.users)
    · rw [if_neg hc0]
      exact key _ (pendSim_refl id db.users)

/-- Rules 1 and 3 are preserved by CreateTask with a store-assigned fresh
id. -/
theorem rule13_createTask (newId now : String) (b : TaskBody) (db : DB)
    (hwf : WF db) (hinv : Inv db) (_hsr : StrongRef db)
    (hf : FreshTaskId db newId) :
    Rule1 (createTask newId now b db).2 ∧ Rule3 (createTask newId now b db).2 := by
  obtain ⟨hnu, hnt, hneu, hnet⟩ := hwf
  obtain ⟨h1, h2, h3, _⟩ := hinv
  obtain ⟨hfne, hfl, hfp⟩ := hf
  have hfKeys : newId ∉ db.tasks.map Prod.fst := slookup_eq_none_iff.mp hfl
  by_cases hv : (falsyStr b.name || falsyStr b.deadline) = true
  · simp only [createTask, hv, if_pos]
    exact ⟨h1, h3⟩
  · rw [Bool.not_eq_true] at hv
    simp only [createTask, hv, Bool.false_eq_true, if_false]
    by_cases hcond : b.assignedUser.getD "" ≠ "" ∧ b.completed.getD false = false
    · rw [if_pos hcond]
      constructor
      · intro p hp q hq hass hcomp
        have hp2 : p ∈ addPendingToUser (b.assignedUser.getD "") newId db.users := hp
        rcases List.mem_cons.mp hq with hq1 | hq1
        · -- the freshly created task
          rw [hq1] at hass hcomp ⊢
          have hassa : b.assignedUser.getD "" = p.1 := hass
          have hor : ¬(b.assignedUser.getD "" = "" ∨ newId = "") := by
            simp [hcond.1, hfne]
          unfold addPendingToUser at hp2
          rw [if_neg hor] at hp2
          rcases mem_supdate_iff.mp hp2 with ⟨p0, hp0, he⟩
          have hp01 : p0.1 = b.assignedUser.getD "" := by
            have hpp : p.1 = p0.1 := by rw [he]
            rw [← hpp]
            exact hassa.symm
          have hnm : newId ∉ p0.2.pendingTasks := hfp p0 hp0
          have hp2e : p.2 = { p0.2 with
              pendingTasks := p0.2.pendingTasks ++ [newId] } := by
            rw [he]
            simp [hp01, hnm]
          rw [hp2e]
          simp only []
          rw [count_append_single_self, List.count_eq_zero.mpr hnm]
        · -- a pre-existing task: its id differs from newId and its user's
          -- count of it is untouched by the push
          have hqne : q.1 ≠ newId := by
            intro he
            exact hfKeys (he ▸ List.mem_map_of_mem Prod.fst hq1)
          rcases pendSim_addPendingToUser (b.assignedUser.getD "") newId
            db.users p hp2 with ⟨p0, hp0, hk, hc⟩
          rw [hk] at hass
          rw [hc q.1 hqne]
          exact h1 p0 hp0 q hq1 hass hcomp
      · intro q hq hass p hp
        have hp2 : p ∈ addPendingToUser (b.assignedUser.getD "") newId db.users := hp
        rcases List.mem_cons.mp hq with hq1 | hq1
        · exfalso
          rw [hq1] at hass
          exact hcond.1 hass
        · have hqne : q.1 ≠ newId := by
            intro he
            exact hfKeys (he ▸ List.mem_map_of_mem Prod.fst hq1)
          rcases (pendSim_addPendingToUser (b.assignedUser.getD "") newId
            db.users).mem_pend_iff hp2 hqne with ⟨p0, hp0, hk, hmi⟩
          rw [hmi]
          exact h3 q hq1 hass p0 hp0
    · rw [if_neg hcond]
      constructor
      · intro p hp q hq hass hcomp
        rcases List.mem_cons.mp hq with hq1 | hq1
        · exfalso
          rw [hq1] at hass hcomp
          have hae : b.assignedUser.getD "" = "" := by
            by_contra hne
            exact hcond ⟨hne, hcomp⟩
          have hpu : p ∈ db.users := hp
          have hp1e : p.1 = "" := by
            rw [← hass]
            exact hae
          apply hneu
          rw [← hp1e]
          exact List.mem_map_of_mem Prod.fst hpu
        · exact h1 p hp q hq1 hass hcomp
      · intro q hq hass p hp
        rcases List.mem_cons.mp hq with hq1 | hq1
        · rw [hq1]
          exact hfp p hp
        · exact h3 q hq1 hass p hp

/-- Core of the UpdateTask preservation argument, for an arbitrary
replacement document `U`. -/
theorem rule13_updateTask_aux (id : String) (U : Task) (db : DB) (prev : Task)
    (hwf : WF db) (hinv : Inv db) (hsr : StrongRef db)
    (hprev : slookup db.tasks id = some prev) :
    Rule1 (DB.mk
      (updateTaskSyncUsers id prev.assignedUser U.assignedUser U.completed
        db.users)
      (supdate db.tasks id (fun _ => U))) ∧
    Rule3 (DB.mk
      (updateTaskSyncUsers id prev.assignedUser U.assignedUser U.completed
        db.users)
      (supdate db.tasks id (fun _ => U))) := by
  obtain ⟨hnu, hnt, hneu, hnet⟩ := hwf
  obtain ⟨h1, h2, h3, _⟩ := hinv
  have hidmem : (id, prev) ∈ db.tasks := mem_of_slookup hprev
  have hidne : id ≠ "" := fun he =>
    hnet (he ▸ List.mem_map_of_mem Prod.fst hidmem)
  have hps : PendSim id db.users
      (updateTaskSyncUsers id prev.assignedUser U.assignedUser U.completed
        db.users) :=
    pendSim_updateTaskSyncUsers _ _ _ _ _
  constructor
  · intro p hp q hq hass hcomp
    have hp2 : p ∈ updateTaskSyncUsers id prev.assignedUser U.assignedUser
      U.completed db.users := hp
    have hq2 : q ∈ supdate db.tasks id (fun _ => U) := hq
    rcases mem_supdate_iff.mp hq2 with ⟨q0, hq0, he⟩
    by_cases hqid : q0.1 = id
    · have hqe : q = (q0.1, U) := by rw [he, if_pos hqid]
      rw [hqe] at hass hcomp
      rw [hqe]
      show p.2.pendingTasks.count q0.1 = 1
      rw [hqid]
      have hp1 : p.1 ∈ db.users.map Prod.fst := by
        rw [← keys_updateTaskSyncUsers id prev.assignedUser U.assignedUser
          U.completed db.users]
        exact List.mem_map_of_mem Prod.fst hp2
      have hp1ne : p.1 ≠ "" := fun he2 => hneu (he2 ▸ hp1)
      rw [hass, hcomp] at hp2
      have keysF2 : (updateTaskSyncUsers id prev.assignedUser p.1 false
          db.users).map Prod.fst = db.users.map Prod.fst :=
        keys_updateTaskSyncUsers _ _ _ _ _
      have ndF2 : ((updateTaskSyncUsers id prev.assignedUser p.1 false
          db.users).map Prod.fst).Nodup := by
        rw [keysF2]
        exact hnu
      have hself : slookup (updateTaskSyncUsers id prev.assignedUser p.1 false
          db.users) p.1 = some p.2 := slookup_of_mem ndF2 hp2
      have hchainlk := slookup_updateTaskSyncUsers_next id prev.assignedUser
        p.1 db.users hp1ne hidne
      rw [hself] at hchainlk
      cases hu : slookup db.users p.1 with
      | none =>
        rw [hu] at hchainlk
        simp at hchainlk
      | some u0 =>
        rw [hu] at hchainlk
        simp only [Option.map_some'] at hchainlk
        have hp2e : p.2 = if id ∈ u0.pendingTasks then u0
            else { u0 with pendingTasks := u0.pendingTasks ++ [id] } :=
          Option.some_inj.mp hchainlk
        have hu0mem : (p.1, u0) ∈ db.users := mem_of_slookup hu
        by_cases hmem : id ∈ u0.pendingTasks
        · have hown := strongref_unique_owner hsr hnt hu0mem hidmem hmem
          by_cases hpc : prev.completed = true
          · exact absurd hmem (h2 (p.1, u0) hu0mem (id, prev) hidmem hown hpc)
          · have hpc2 : prev.completed = false := by
              revert hpc
              cases prev.completed <;> simp
            have hc1 := h1 (p.1, u0) hu0mem (id, prev) hidmem hown hpc2
            rw [hp2e, if_pos hmem]
            exact hc1
        · rw [hp2e, if_neg hmem]
          show (u0.pendingTasks ++ [id]).count id = 1
          rw [count_append_single_self, List.count_eq_zero.mpr hmem]
    · have hqe : q = (q0.1, q0.2) := by rw [he, if_neg hqid]
      rw [hqe] at hass hcomp
      rw [hqe]
      show p.2.pendingTasks.count q0.1 = 1
      rcases hps p hp2 with ⟨p0, hp0, hk, hc⟩
      rw [hk] at hass
      rw [hc q0.1 hqid]
      exact h1 p0 hp0 q0 hq0 hass hcomp
  · intro q hq hass p hp
    have hp2 : p ∈ updateTaskSyncUsers id prev.assignedUser U.assignedUser
      U.completed db.users := hp
    have hq2 : q ∈ supdate db.tasks id (fun _ => U) := hq
    rcases mem_supdate_iff.mp hq2 with ⟨q0, hq0, he⟩
    by_cases hqid : q0.1 = id
    · have hqe : q = (q0.1, U) := by rw [he, if_pos hqid]
      rw [hqe] at hass
      rw [hqe]
      show q0.1 ∉ p.2.pendingTasks
      rw [hqid]
      rw [hass] at hp2
      rw [updateTaskSyncUsers_empty_next] at hp2
      by_cases hpu : prev.assignedUser ≠ ""
      · rw [if_pos hpu] at hp2
        unfold removePendingFromUser at hp2
        have hor : ¬(prev.assignedUser = "" ∨ id = "") := by
          simp [hpu, hidne]
        rw [if_neg hor] at hp2
        rcases mem_supdate_iff.mp hp2 with ⟨p0, hp0, hep⟩
        by_cases hpk : p0.1 = prev.assignedUser
        · have hpe : p.2 = { p0.2 with
              pendingTasks := p0.2.pendingTasks.filter (fun x => x != id) } := by
            rw [hep]
            simp [hpk]
          rw [hpe]
          show id ∉ p0.2.pendingTasks.filter (fun x => x != id)
          exact not_mem_filter_ne _ id
        · have hpe : p.2 = p0.2 := by
            rw [hep]
            simp [hpk]
          rw [hpe]
          intro hmem
          have hown := strongref_unique_owner hsr hnt hp0 hidmem hmem
          exact hpk hown.symm
      · rw [if_neg hpu] at hp2
        have hpue : prev.assignedUser = "" := not_not.mp hpu
        exact h3 (id, prev) hidmem hpue p hp2
    · have hqe : q = (q0.1, q0.2) := by rw [he, if_neg hqid]
      rw [hqe] at hass
      rw [hqe]
      show q0.1 ∉ p.2.pendingTasks
      rcases hps.mem_pend_iff hp2 hqid with ⟨p0, hp0, hk, hmi⟩
      rw [hmi]
      exact h3 q0 hq0 hass p0 hp0

/-- Rules 1 and 3 are preserved by UpdateTask. -/
theorem rule13_updateTask (id : String) (b : TaskBody) (db : DB)
    (hwf : WF db) (hinv : Inv db) (hsr : StrongRef db) :
    Rule1 (updateTask id b db).2 ∧ Rule3 (updateTask id b db).2 := by
  by_cases hv : (falsyStr b.name || falsyStr b.deadline) = true
  · simp only [updateTask, hv, if_pos]
    exact ⟨hinv.1, hinv.2.2.1⟩
  · rw [Bool.not_eq_true] at hv
    cases hprev : slookup db.tasks id with
    | none =>
      simp only [updateTask, hv, Bool.false_eq_true, if_false, hprev]
      exact ⟨hinv.1, hinv.2.2.1⟩
    | some prev =>
      simp only [updateTask, hv, Bool.false_eq_true, if_false, hprev]
      exact rule13_updateTask_aux id _ db prev hwf hinv hsr hprev

theorem keys_supdate {α : Type} (s : Store α) (k : String) (f : α → α) :
    (supdate s k f).map Prod.fst = s.map Prod.fst :=
  keys_supdateAll s _ f

/-- UpdateUser without a pendingTasks payload: the stored pendingTasks list
is carried over, so rules 1 and 3 transfer directly. -/
theorem rule13_updateUser_keep (id : String) (upd : User) (db : DB)
    (prev : User) (hwf : WF db) (hinv : Inv db)
    (hprev : slookup db.users id = some prev)
    (hpend : upd.pendingTasks = prev.pendingTasks) :
    Rule1 (DB.mk (supdate db.users id (fun _ => upd)) db.tasks) ∧
    Rule3 (DB.mk (supdate db.users id (fun _ => upd)) db.tasks) := by
  obtain ⟨hnu, hnt, hneu, hnet⟩ := hwf
  obtain ⟨h1, h2, h3, _⟩ := hinv
  have hidmem : (id, prev) ∈ db.users := mem_of_slookup hprev
  constructor
  · intro p hp q hq hass hcomp
    have hp2 : p ∈ supdate db.users id (fun _ => upd) := hp
    have hq2 : q ∈ db.tasks := hq
    rcases mem_supdate_iff.mp hp2 with ⟨p0, hp0, he⟩
    by_cases hpk : p0.1 = id
    · have hp02 : p0.2 = prev := by
        apply key_unique hnu _ hidmem
        rw [← hpk]
        exact hp0
      have hpe : p = (p0.1, upd) := by rw [he, if_pos hpk]
      rw [hpe] at hass
      rw [hpe]
      show upd.pendingTasks.count q.1 = 1
      rw [hpend, ← hp02]
      exact h1 p0 hp0 q hq2 hass hcomp
    · have hpe : p = (p0.1, p0.2) := by rw [he, if_neg hpk]
      rw [hpe] at hass
      rw [hpe]
      exact h1 p0 hp0 q hq2 hass hcomp
  · intro q hq hass p hp
    have hp2 : p ∈ supdate db.users id (fun _ => upd) := hp
    have hq2 : q ∈ db.tasks := hq
    rcases mem_supdate_iff.mp hp2 with ⟨p0, hp0, he⟩
    by_cases hpk : p0.1 = id
    · have hp02 : p0.2 = prev := by
        apply key_unique hnu _ hidmem
        rw [← hpk]
        exact hp0
      have hpe : p = (p0.1, upd) := by rw [he, if_pos hpk]
      rw [hpe]
      show q.1 ∉ upd.pendingTasks
      rw [hpend, ← hp02]
      exact h3 q hq2 hass p0 hp0
    · have hpe : p = (p0.1, p0.2) := by rw [he, if_neg hpk]
      rw [hpe]
      exact h3 q hq2 hass p0 hp0

/-- UpdateUser with a duplicate-free pendingTasks payload: rules 1 and 3
hold after the replacement plus the two task-side bulk updates. -/
theorem rule13_updateUser_diff (id uname : String) (upd : User) (db : DB)
    (prev : User) (pend : List String) (hwf : WF db) (hinv : Inv db)
    (hsr : StrongRef db) (hprev : slookup db.users id = some prev)
    (hnd : pend.Nodup) (hpend : upd.pendingTasks = pend) :
    Rule1 (DB.mk (supdate db.users id (fun _ => upd))
      (updateUserSyncTasks id uname prev.pendingTasks pend db.tasks)) ∧
    Rule3 (DB.mk (supdate db.users id (fun _ => upd))
      (updateUserSyncTasks id uname prev.pendingTasks pend db.tasks)) := by
  obtain ⟨hnu, hnt, hneu, hnet⟩ := hwf
  obtain ⟨h1, h2, h3, _⟩ := hinv
  have hidmem : (id, prev) ∈ db.users := mem_of_slookup hprev
  have hidne : id ≠ "" := fun he =>
    hneu (he ▸ List.mem_map_of_mem Prod.fst hidmem)
  constructor
  · intro p hp q hq hass hcomp
    have hp2 : p ∈ supdate db.users id (fun _ => upd) := hp
    have hq2 : q ∈ updateUserSyncTasks id uname prev.pendingTasks pend
      db.tasks := hq
    rcases mem_supdate_iff.mp hp2 with ⟨p0, hp0, hep⟩
    rcases mem_updateUserSyncTasks hq2 with ⟨q0, hq0, heq⟩
    by_cases cadd : q0.1 ∈ pend ∧ q0.1 ∉ prev.pendingTasks
    · have hqe : q = (q0.1, assignTo id uname q0.2) := by
        rw [heq, if_pos cadd]
      rw [hqe] at hass
      rw [hqe]
      show p.2.pendingTasks.count q0.1 = 1
      have hassid : id = p.1 := hass
      have hpk : p0.1 = id := by
        have hpp : p.1 = p0.1 := by rw [hep]
        rw [← hpp]
        exact hassid.symm
      have hpe2 : p.2 = upd := by
        rw [hep]
        simp [hpk]
      rw [hpe2, hpend]
      exact List.count_eq_one_of_mem hnd cadd.1
    · by_cases cclear : q0.1 ∈ prev.pendingTasks ∧ q0.1 ∉ pend ∧
        q0.2.assignedUser = id
      · exfalso
        have hqe : q = (q0.1, clearAssignment q0.2) := by
          rw [heq, if_neg cadd, if_pos cclear]
        rw [hqe] at hass
        have hp1 : p.1 ∈ db.users.map Prod.fst := by
          rw [← keys_supdate db.users id (fun _ => upd)]
          exact List.mem_map_of_mem Prod.fst hp2
        apply hneu
        rw [show ("" : String) = p.1 from hass]
        exact hp1
      · have hqe : q = (q0.1, q0.2) := by
          rw [heq, if_neg cadd, if_neg cclear]
        rw [hqe] at hass hcomp
        rw [hqe]
        show p.2.pendingTasks.count q0.1 = 1
        by_cases hpk : p0.1 = id
        · have hpe2 : p.2 = upd := by
            rw [hep]
            simp [hpk]
          have hp1id : p.1 = id := by
            rw [hep]
            simp [hpk]
          rw [hp1id] at hass
          have hcount := h1 (id, prev) hidmem q0 hq0 hass hcomp
          have hmemprev : q0.1 ∈ prev.pendingTasks :=
            mem_of_count_eq_one hcount
          have hmempend : q0.1 ∈ pend := by
            by_contra hnp
            exact cclear ⟨hmemprev, hnp, hass⟩
          rw [hpe2, hpend]
          exact List.count_eq_one_of_mem hnd hmempend
        · have hpe2 : p.2 = p0.2 := by
            rw [hep]
            simp [hpk]
          have hpp : p.1 = p0.1 := by rw [hep]
          rw [hpp] at hass
          rw [hpe2]
          exact h1 p0 hp0 q0 hq0 hass hcomp
  · intro q hq hass p hp
    have hp2 : p ∈ supdate db.users id (fun _ => upd) := hp
    have hq2 : q ∈ updateUserSyncTasks id uname prev.pendingTasks pend
      db.tasks := hq
    rcases mem_supdate_iff.mp hp2 with ⟨p0, hp0, hep⟩
    rcases mem_updateUserSyncTasks hq2 with ⟨q0, hq0, heq⟩
    by_cases cadd : q0.1 ∈ pend ∧ q0.1 ∉ prev.pendingTasks
    · exfalso
      have hqe : q = (q0.1, assignTo id uname q0.2) := by
        rw [heq, if_pos cadd]
      rw [hqe] at hass
      exact hidne (show id = "" from hass)
    · by_cases cclear : q0.1 ∈ prev.pendingTasks ∧ q0.1 ∉ pend ∧
        q0.2.assignedUser = id
      · have hqe : q = (q0.1, clearAssignment q0.2) := by
          rw [heq, if_neg cadd, if_pos cclear]
        rw [hqe]
        show q0.1 ∉ p.2.pendingTasks
        by_cases hpk : p0.1 = id
        · have hpe2 : p.2 = upd := by
            rw [hep]
            simp [hpk]
          rw [hpe2, hpend]
          exact cclear.2.1
        · have hpe2 : p.2 = p0.2 := by
            rw [hep]
            simp [hpk]
          rw [hpe2]
          intro hmem
          have hown := strongref_unique_owner hsr hnt hp0 hq0 hmem
          apply hpk
          rw [← hown, cclear.2.2]
      · have hqe : q = (q0.1, q0.2) := by
          rw [heq, if_neg cadd, if_neg cclear]
        rw [hqe] at hass
        rw [hqe]
        show q0.1 ∉ p.2.pendingTasks
        by_cases hpk : p0.1 = id
        · have hpe2 : p.2 = upd := by
            rw [hep]
            simp [hpk]
          rw [hpe2, hpend]
          intro hmem
          have hnprev : q0.1 ∉ prev.pendingTasks :=
            h3 q0 hq0 hass (id, prev) hidmem
          exact cadd ⟨hmem, hnprev⟩
        · have hpe2 : p.2 = p0.2 := by
            rw [hep]
            simp [hpk]
          rw [hpe2]
          exact h3 q0 hq0 hass p0 hp0

/-- Rules 1 and 3 are preserved by UpdateUser with a duplicate-free
pendingTasks payload. -/
theorem rule13_updateUser (id : String) (b : UserBody) (db : DB)
    (hwf : WF db) (hinv : Inv db) (hsr : StrongRef db)
    (hnd : match b.pendingTasks with | some l => l.Nodup | none => True) :
    Rule1 (updateUser id b db).2 ∧ Rule3 (updateUser id b db).2 := by
  by_cases hv : (falsyStr b.name || falsyStr b.email) = true
  · simp only [updateUser, hv, if_pos]
    exact ⟨hinv.1, hinv.2.2.1⟩
  · rw [Bool.not_eq_true] at hv
    cases hprev : slookup db.users id with
    | none =>
      simp only [updateUser, hv, Bool.false_eq_true, if_false, hprev]
      exact ⟨hinv.1, hinv.2.2.1⟩
    | some prev =>
      cases hbp : b.pendingTasks with
      | none =>
        simp only [updateUser, hv, Bool.false_eq_true, if_false, hprev, hbp]
        exact rule13_updateUser_keep id _ db prev hwf hinv hprev rfl
      | some pend =>
        have hndp : pend.Nodup := by simpa [hbp] using hnd
        simp only [updateUser, hv, Bool.false_eq_true, if_false, hprev, hbp]
        exact rule13_updateUser_diff id _ _ db prev pend hwf hinv hsr hprev
          hndp rfl

/-- C1 (amended): from a state satisfying the §3 contract together with
unique non-empty store ids and the strengthened reference condition (every
pendingTasks entry names an existing Task assigned to that user), any
single completed Sync Engine call — with store-assigned fresh ids on
CreateTask and duplicate-free pendingTasks payloads on UpdateUser —
leaves a state satisfying consistency rules 1 and 3.  Rules 2 and 4 are
not preserved in general (see the counterexample). -/
theorem syncCall_preserves_rules_1_3 (c : SyncCall) (db db2 : DB)
    (hwf : WF db) (hinv : Inv db) (hsr : StrongRef db) (hok : callOK c db)
    (happ : applyCall c db = some db2) :
    Rule1 db2 ∧ Rule3 db2 := by
  cases c with
  | createTaskC newId now b =>
    simp only [applyCall] at happ
    by_cases h : (createTask newId now b db).1 = Outcome.created
    · rw [if_pos h] at happ
      rw [← Option.some_inj.mp happ]
      exact rule13_createTask newId now b db hwf hinv hsr hok
    · rw [if_neg h] at happ
      exact absurd happ (by simp)
  | updateTaskC id b =>
    simp only [applyCall] at happ
    by_cases h : (updateTask id b db).1 = Outcome.ok
    · rw [if_pos h] at happ
      rw [← Option.some_inj.mp happ]
      exact rule13_updateTask id b db hwf hinv hsr
    · rw [if_neg h] at happ
      exact absurd happ (by simp)
  | deleteTaskC id =>
    simp only [applyCall] at happ
    by_cases h : (deleteTask id db).1 = Outcome.ok
    · rw [if_pos h] at happ
      rw [← Option.some_inj.mp happ]
      exact rule13_deleteTask id db hwf hinv hsr
    · rw [if_neg h] at happ
      exact absurd happ (by simp)
  | updateUserC id b =>
    simp only [applyCall] at happ
    by_cases h : (updateUser id b db).1 = Outcome.ok
    · rw [if_pos h] at happ
      rw [← Option.some_inj.mp happ]
      exact rule13_updateUser id b db hwf hinv hsr hok
    · rw [if_neg h] at happ
      exact absurd happ (by simp)
  | deleteUserC id =>
    simp only [applyCall] at happ
    by_cases h : (deleteUser id db).1 = Outcome.ok
    · rw [if_pos h] at happ
      rw [← Option.some_inj.mp happ]
      exact rule13_deleteUser id db hwf hinv hsr
    · rw [if_neg h] at happ
      exact absurd happ (by simp)

/-- Pre-state for the C1 counterexample: one user with no pending tasks,
one completed, unassigned task.  Satisfies the §3 contract and the
strengthened conditions. -/
abbrev dbCE : DB :=
  DB.mk [("u1", sampleUser)] [("t1", { sampleTask with completed := true })]

/-- The UpdateUser payload adding the completed task t1 to pendingTasks. -/
abbrev bodyCE : UserBody :=
  UserBody.mk (some "Alice") (some "a@x.com") (some ["t1"]) none

/-- Post-state of the counterexample call: t1 is assigned to u1, still
completed, and listed in u1's pendingTasks — rule 2 is violated. -/
abbrev dbCE2 : DB :=
  DB.mk [("u1", { sampleUser with pendingTasks := ["t1"] })]
    [("t1",
      { sampleTask with
          completed := true, assignedUser := "u1",
          assignedUserName := "Alice" })]

/-- C1 (counterexample): from a state satisfying the full §3 consistency
contract (even with unique non-empty ids and the strengthened reference
condition), one completed UpdateUser call whose duplicate-free
pendingTasks payload adds a completed task's id yields a state violating
§3 rule 2: the task stays completed, is assigned to the user
unconditionally, and remains listed in pendingTasks. -/
theorem updateUser_completed_add_breaks_rule2 :
    WF dbCE ∧ Inv dbCE ∧ StrongRef dbCE ∧
    callOK (SyncCall.updateUserC "u1" bodyCE) dbCE ∧
    applyCall (SyncCall.updateUserC "u1" bodyCE) dbCE = some dbCE2 ∧
    ¬ Rule2 dbCE2 := by
  refine ⟨by decide, by decide, by decide, by decide, by decide, by decide⟩

/-- Pre-state for the C1 witness: one user with one pending, assigned,
uncompleted task. -/
abbrev dbCW : DB :=
  DB.mk [("u1", { sampleUser with pendingTasks := ["t1"] })]
    [("t1",
      { sampleTask with
          assignedUser := "u1", assignedUserName := "Alice" })]

theorem syncCall_preserves_rules_1_3_witness :
    WF dbCW ∧ Inv dbCW ∧ StrongRef dbCW ∧
    callOK (SyncCall.deleteTaskC "t1") dbCW ∧
    applyCall (SyncCall.deleteTaskC "t1") dbCW =
      some (DB.mk [("u1", { sampleUser with pendingTasks := [] })] []) ∧
    (Rule1 (DB.mk [("u1", { sampleUser with pendingTasks := [] })] []) ∧
      Rule3 (DB.mk [("u1", { sampleUser with pendingTasks := [] })] [])) :=
  ⟨by decide, by decide, by decide, by decide, by decide,
    syncCall_preserves_rules_1_3 (SyncCall.deleteTaskC "t1") dbCW
      (DB.mk [("u1", { sampleUser with pendingTasks := [] })] [])
      (by decide) (by decide) (by decide) (by decide) (by decide)⟩

end TaskApi
